import Mathlib

/-!
Shallow embedding of the TypeDoc comment model and its serialization layer
(`src/lib/models/comments/comment.ts`) and of `IndexedAccessType`
(`src/lib/models/types/indexed-access.ts`).

TypeScript strings are modelled as `List Char`, so that the string
operations the source uses (`includes`, `indexOf`, `substring`, `trim`,
concatenation) have direct, provable counterparts.
-/

/-- TypeScript strings, modelled as lists of characters. -/
abbrev Str := List Char

/-- A reflection graph node, as seen by the comment model: only its stable
integer `id`, its `kind` (fed to `ReflectionKind.classString`) and the
result of `getFullName()` are consulted by the code under verification. -/
structure Reflection where
  id : Int
  kind : Int
  fullName : Str
deriving DecidableEq

/-- Modelled from the spec: `ReflectionSymbolId` (not under `src/`) is an
opaque symbol-identifier whose serialized form is "its own serializable
payload"; deserialization rebuilds it from that payload
(`new ReflectionSymbolId(part.target)`). -/
structure ReflectionSymbolId where
  payload : Str
deriving DecidableEq

/-- The possible values of `InlineTagDisplayPart.target`:
`Reflection | string | ReflectionSymbolId`. -/
inductive InlineTarget where
  | refl (r : Reflection)
  | url (s : Str)
  | sym (s : ReflectionSymbolId)
deriving DecidableEq

/-- The possible values of `RelativeLinkDisplayPart.target`:
`Reflection | number`. -/
inductive RelTarget where
  | refl (r : Reflection)
  | media (n : Int)
deriving DecidableEq

/-- `CommentDisplayPart` from `comment.ts`: text run, code run, inline tag
(with optional target and optional `tsLinkText`), or relative link.  The
relative link's target is an `Option` because deserialization installs a
`null!` placeholder that may stay unresolved. -/
inductive CommentDisplayPart where
  | text (text : Str)
  | code (text : Str)
  | inlineTag (tag : Str) (text : Str) (target : Option InlineTarget)
      (tsLinkText : Option Str)
  | relativeLink (text : Str) (target : Option RelTarget)
deriving DecidableEq

/-- The `text` property, present on every display-part variant. -/
def CommentDisplayPart.textOf : CommentDisplayPart → Str
  | .text t => t
  | .code t => t
  | .inlineTag _ t _ _ => t
  | .relativeLink t _ => t

/-- Serialized (wire) form of an inline-tag target:
integer reflection id, raw string, or symbol-id payload. -/
inductive JSONInlineTarget where
  | num (n : Int)
  | str (s : Str)
  | sym (payload : Str)
deriving DecidableEq

/-- Serialized form of a relative-link target: the discriminated
`\x7bmedia: n\x7d` / `\x7breflection: id\x7d` shapes. -/
inductive JSONRelTarget where
  | media (n : Int)
  | reflection (id : Int)
deriving DecidableEq

/-- Serialized form of a display part (`JSONOutput.CommentDisplayPart`). -/
inductive JSONPart where
  | text (text : Str)
  | code (text : Str)
  | inlineTag (tag : Str) (text : Str) (target : Option JSONInlineTarget)
      (tsLinkText : Option Str)
  | relativeLink (text : Str) (target : JSONRelTarget)
deriving DecidableEq

/-- One display part of `Comment.serializeDisplayParts`.  Mirrors the
`switch` in the source: text/code are spread-copied; an inline tag's target
becomes the raw string, the reflection's `id`, or the symbol id's payload;
a relative link's target becomes `\x7bmedia: n\x7d` or
`\x7breflection: id\x7d`.  A `none` relative-link target (the `null!`
placeholder of a failed deserialization) makes the TypeScript code read
`.id` of `null` and throw, modelled as `none`. -/
def serializePart : CommentDisplayPart → Option JSONPart
  | .text t => some (.text t)
  | .code t => some (.code t)
  | .inlineTag tag tx tgt ts =>
      let tgt' : Option JSONInlineTarget :=
        match tgt with
        | some (.url s) => some (.str s)
        | some (.refl r) => some (.num r.id)
        | some (.sym s) => some (.sym s.payload)
        | none => none
      some (.inlineTag tag tx tgt' ts)
  | .relativeLink tx tgt =>
      match tgt with
      | some (.media n) => some (.relativeLink tx (.media n))
      | some (.refl r) => some (.relativeLink tx (.reflection r.id))
      | none => none

/-- `Comment.serializeDisplayParts`. -/
def serializeDisplayParts (parts : List CommentDisplayPart) :
    Option (List JSONPart) :=
  parts.mapM serializePart

/-- The deserialization session state the deferred callbacks consult:
the `oldIdToNewId` remapping table and the project's
`getReflectionById` lookup (both collaborators outside `src/`,
modelled from the spec's Reference Resolution Engine contract). -/
structure DeserializerEnv where
  oldIdToNewId : Int → Option Int
  getReflectionById : Int → Option Reflection

/-- The lookup a deferred callback performs:
`project.getReflectionById(de.oldIdToNewId[oldId] ?? -1)`. -/
def resolveId (de : DeserializerEnv) (oldId : Int) : Option Reflection :=
  de.getReflectionById ((de.oldIdToNewId oldId).getD (-1))

/-- One part of `Comment.deserializeDisplayParts`, with the deferred
resolution callback already applied to it (the callback runs once per
deferred entry, in part order, after the graph is revived).  Returns the
rebuilt part together with the list of warnings (original ids that could
not be resolved) the callback emits for it. -/
def deserializePart (de : DeserializerEnv) :
    JSONPart → CommentDisplayPart × List Int
  | .text t => (.text t, [])
  | .code t => (.code t, [])
  | .inlineTag tag tx tgt ts =>
      match tgt with
      | some (.num oldId) =>
          match resolveId de oldId with
          | some r => (.inlineTag tag tx (some (.refl r)) ts, [])
          | none => (.inlineTag tag tx none ts, [oldId])
      | some (.str s) => (.inlineTag tag tx (some (.url s)) ts, [])
      | some (.sym p) => (.inlineTag tag tx (some (.sym ⟨p⟩)) ts, [])
      | none => (.inlineTag tag tx none ts, [])
  | .relativeLink tx tgt =>
      match tgt with
      | .media n => (.relativeLink tx (some (.media n)), [])
      | .reflection oldId =>
          match resolveId de oldId with
          | some r => (.relativeLink tx (some (.refl r)), [])
          | none => (.relativeLink tx none, [oldId])

/-- `Comment.deserializeDisplayParts`: rebuild every part and collect, in
part order, the warnings the deferred resolution pass emits. -/
def deserializeDisplayParts (de : DeserializerEnv) :
    List JSONPart → List CommentDisplayPart × List Int
  | [] => ([], [])
  | p :: ps =>
      let r := deserializePart de p
      let rs := deserializeDisplayParts de ps
      (r.1 :: rs.1, r.2 ++ rs.2)

/-- C5 sanity check example. -/
example :
    serializeDisplayParts
      [.relativeLink "x".toList (some (.media 3))] =
    some [.relativeLink "x".toList (.media 3)] := by decide

/-- Replace the `text` property of a display part (the in-place
`body[0].text = ...` assignment of `splitPartsToHeaderAndBody`). -/
def CommentDisplayPart.setText (p : CommentDisplayPart) (t : Str) :
    CommentDisplayPart :=
  match p with
  | .text _ => .text t
  | .code _ => .code t
  | .inlineTag tag _ tgt ts => .inlineTag tag t tgt ts
  | .relativeLink _ tgt => .relativeLink t tgt

/-- `Comment.cloneDisplayParts`: each part is a plain object copied by
spread (`\x7b...p\x7d`), which is the identity at the value level (object
identities are treated separately, in the address-annotated clone model
below). -/
def cloneDisplayParts (parts : List CommentDisplayPart) :
    List CommentDisplayPart :=
  parts.map id

/-- The decimal rendering of an integer interpolated into a template
literal. -/
def intStr (n : Int) : Str := (toString n).toList

/-- `Comment.combineDisplayParts`.  A relative link with the `null!`
placeholder target would make the source throw inside `getFullName()`;
that case is modelled as an empty name and excluded by a well-formedness
hypothesis wherever a theorem depends on `combineDisplayParts`. -/
def combineDisplayParts (parts : List CommentDisplayPart) : Str :=
  (parts.map fun p =>
    match p with
    | .text t => t
    | .code t => t
    | .inlineTag tag tx _ _ => '\x7b' :: (tag ++ ' ' :: tx) ++ ['\x7d']
    | .relativeLink _ tgt =>
        "\x7brel:".toList ++
          (match tgt with
           | some (.media n) => intStr n
           | some (.refl r) => r.fullName
           | none => []) ++ ['\x7d']).flatten

/-- A relative-link part whose target is present (no `null!`
placeholder); serialization and `combineDisplayParts` only terminate
normally on such parts. -/
def partRelOk : CommentDisplayPart → Bool
  | .relativeLink _ none => false
  | _ => true

/-- The whitespace class removed by JavaScript's `String.prototype.trim`
(restricted to the characters that can matter here). -/
def isJsWs (c : Char) : Bool :=
  c = ' ' || c = '\t' || c = '\n' || c = '\r' || c = '\x0b' || c = '\x0c'

/-- JavaScript `trim()`: drop leading and trailing whitespace. -/
def jsTrim (s : Str) : Str :=
  List.rdropWhile isJsWs (s.dropWhile isJsWs)

/-- The predicate of the `findIndex` in `splitPartsToHeaderAndBody`:
a text or code part whose text contains a newline. -/
def partNewlinePred : CommentDisplayPart → Bool
  | .text t => t.contains '\n'
  | .code t => t.contains '\n'
  | .inlineTag _ _ _ _ => false
  | .relativeLink _ _ => false

/-- The `if (!body[0].text) body.shift()` step after the split.  An empty
body is unreachable on the source's control paths (the split index always
leaves at least one part in the body). -/
def dropLeadingEmptyText : List CommentDisplayPart → List CommentDisplayPart
  | [] => []
  | p :: rest => if p.textOf = [] then rest else p :: rest

/-- The result record of `splitPartsToHeaderAndBody`. -/
structure SplitResult where
  header : Str
  body : List CommentDisplayPart
deriving DecidableEq

/-- `Comment.splitPartsToHeaderAndBody`.  Mirrors the source: find the
first text/code part containing a newline; if none, the whole sequence
(combined) is the header.  If the found part is a code part, back the
index up by one (`--index`); an index of `-1` after backing up returns an
empty header and the whole sequence as body.  Otherwise the header is the
combination of the parts before the index plus the indexed part's text up
to its first newline (all of it when it has none), and the body is the
rest, with the indexed part's text truncated past the newline and a
leading empty-text part dropped.  The header is trimmed. -/
def splitPartsToHeaderAndBody (parts : List CommentDisplayPart) :
    SplitResult :=
  match parts.findIdx? partNewlinePred with
  | none => ⟨combineDisplayParts parts, []⟩
  | some i =>
      let isCode := match parts[i]? with
        | some (.code _) => true
        | _ => false
      if isCode && i == 0 then
        ⟨[], cloneDisplayParts parts⟩
      else
        let j := if isCode then i - 1 else i
        let t := (parts[j]?.getD (.text [])).textOf
        match t.findIdx? (· == '\n') with
        | none =>
            let header := combineDisplayParts (parts.take j) ++ t
            let body := dropLeadingEmptyText
              (cloneDisplayParts (parts.drop (j + 1)))
            ⟨jsTrim header, body⟩
        | some s =>
            let header := combineDisplayParts (parts.take j) ++ t.take s
            let body :=
              match cloneDisplayParts (parts.drop j) with
              | [] => []
              | p :: rest => p.setText (t.drop (s + 1)) :: rest
            ⟨jsTrim header, dropLeadingEmptyText body⟩

/-- JavaScript truthiness of an inline-tag target (`if (part.target)`):
an empty string is falsy, a `Reflection` or `ReflectionSymbolId` object
is always truthy. -/
def inlineTargetTruthy : InlineTarget → Bool
  | .url s => !s.isEmpty
  | .refl _ => true
  | .sym _ => true

/-- The `@link`/`@linkcode`/`@linkplain` arm of
`displayPartsToMarkdown`: under `if (part.target)` (absent or
empty-string targets are falsy and push the raw text), compute `url` and
`kindClass` from the target, then render as an `<a>` element or a
markdown link, wrapping the visible text in code formatting for
`@linkcode`.  The `url ? ... : ...` and `kindClass ? ... : ...`
ternaries also follow truthiness: an absent or empty-string `url` falls
back to the raw text in HTML mode and to the (possibly code-wrapped)
text in markdown mode, and an empty `kindClass` produces no `class`
attribute.  `classString` stands for the external
`ReflectionKind.classString`. -/
def renderLinkTag (tag tx : Str) (tgt : Option InlineTarget)
    (urlTo : Reflection → Str) (classString : Int → Str)
    (useHtml : Bool) : Str :=
  match tgt with
  | none => tx
  | some t =>
      if inlineTargetTruthy t then
        let url : Option Str :=
          match t with
          | .url s => some s
          | .refl r => some (urlTo r)
          | .sym _ => none
        let kindClass : Option Str :=
          match t with
          | .refl r => some (classString r.kind)
          | _ => none
        if useHtml then
          let text :=
            if tag = "@linkcode".toList
            then "<code>".toList ++ tx ++ "</code>".toList
            else tx
          match url with
          | some u =>
              if u.isEmpty then tx
              else
                "<a href=\"".toList ++ u ++ "\"".toList ++
                  (match kindClass with
                   | some k =>
                       if k.isEmpty then []
                       else " class=\"".toList ++ k ++ "\"".toList
                   | none => []) ++
                  ">".toList ++ text ++ "</a>".toList
          | none => tx
        else
          let text :=
            if tag = "@linkcode".toList
            then '\x60' :: tx ++ ['\x60']
            else tx
          match url with
          | some u =>
              if u.isEmpty then text
              else '[' :: (text ++ "](".toList ++ u) ++ [')']
          | none => text
      else tx

/-- `Comment.displayPartsToMarkdown`: text/code pass through; `@label`
and `@inheritdoc` render to nothing; the three link tags render through
`renderLinkTag`; any other inline tag renders verbatim as
`\x7b@tag text\x7d`; relative links are not rendered (the source's
`TODO GERRIT` arm). -/
def displayPartsToMarkdown (parts : List CommentDisplayPart)
    (urlTo : Reflection → Str) (classString : Int → Str)
    (useHtml : Bool) : Str :=
  (parts.map fun p =>
    match p with
    | .text t => t
    | .code t => t
    | .inlineTag tag tx tgt _ =>
        if tag = "@label".toList || tag = "@inheritdoc".toList then []
        else if tag = "@link".toList || tag = "@linkcode".toList ||
            tag = "@linkplain".toList then
          renderLinkTag tag tx tgt urlTo classString useHtml
        else '\x7b' :: (tag ++ ' ' :: tx) ++ ['\x7d']
    | .relativeLink _ _ => []).flatten

/-- `CommentTag`: tag name, optional user identifier, content parts. -/
structure CommentTag where
  tag : Str
  name : Option Str
  content : List CommentDisplayPart
deriving DecidableEq

/-- `Comment`.  `modifierTags` is a JavaScript `Set`, modelled as its
insertion-ordered element list (hence duplicate-free whenever it was
built through `Set` operations). -/
structure Comment where
  summary : List CommentDisplayPart
  blockTags : List CommentTag
  modifierTags : List Str
  label : Option Str
  sourcePath : Option Str
  discoveryId : Option Int
deriving DecidableEq

/-- The predicate of `extractLabelTag`'s `findIndex`:
`part.kind === "inline-tag" && part.tag === "@label"`. -/
def isLabelInline : CommentDisplayPart → Bool
  | .inlineTag tag _ _ _ => tag = "@label".toList
  | _ => false

/-- `extractLabelTag`: splice the first `@label` inline tag out of the
summary and move its text into `label`. -/
def extractLabelTag (c : Comment) : Comment :=
  match c.summary.findIdx? isLabelInline with
  | none => c
  | some i =>
      { c with
        label := some ((c.summary[i]?.getD (.text [])).textOf),
        summary := c.summary.eraseIdx i }

/-- The `Comment` constructor: assign the three collections (all optional,
defaulting to empty) and run `extractLabelTag`. -/
def Comment.make (summary : List CommentDisplayPart := [])
    (blockTags : List CommentTag := [])
    (modifierTags : List Str := []) : Comment :=
  extractLabelTag
    { summary := summary, blockTags := blockTags,
      modifierTags := modifierTags, label := none,
      sourcePath := none, discoveryId := none }

/-- `new Set(list)`: deduplicate keeping the first occurrence of each
element, in insertion order. -/
def jsSetOfList (l : List Str) : List Str :=
  l.foldl (fun acc x => if x ∈ acc then acc else acc ++ [x]) []

/-- Serialized form of a `CommentTag` (`JSONOutput.CommentTag`). -/
structure JSONCommentTag where
  tag : Str
  name : Option Str
  content : List JSONPart
deriving DecidableEq

/-- Serialized form of a `Comment` (`JSONOutput.Comment`):
`modifierTags` is omitted when the set is empty. -/
structure JSONComment where
  summary : List JSONPart
  blockTags : List JSONCommentTag
  modifierTags : Option (List Str)
  label : Option Str
deriving DecidableEq

/-- `CommentTag.toObject`. -/
def CommentTag.toObject (t : CommentTag) : Option JSONCommentTag := do
  let c ← serializeDisplayParts t.content
  pure ⟨t.tag, t.name, c⟩

/-- `Comment.toObject`: serialize summary and block tags, write the
modifier set's elements only when the set is nonempty, copy the label.
`sourcePath` and `discoveryId` are not written. -/
def Comment.toObject (c : Comment) : Option JSONComment := do
  let s ← serializeDisplayParts c.summary
  let bts ← c.blockTags.mapM CommentTag.toObject
  pure ⟨s, bts,
    if c.modifierTags.length > 0 then some c.modifierTags else none,
    c.label⟩

/-- `CommentTag.fromObject` applied to `new CommentTag(tagObj.tag, [])`:
copy `name`, deserialize the content.  Also returns the warnings of the
deferred resolution pass over the content. -/
def CommentTag.fromObject (de : DeserializerEnv) (obj : JSONCommentTag) :
    CommentTag × List Int :=
  let r := deserializeDisplayParts de obj.content
  (⟨obj.tag, obj.name, r.1⟩, r.2)

/-- `Comment.fromObject` applied to a fresh `new Comment()`: deserialize
the summary, rebuild each block tag, rebuild the modifier set
(`new Set(obj.modifierTags)`, empty when the field is absent), copy the
label.  `sourcePath`/`discoveryId` are untouched (absent).  Also returns
the warnings of the deferred resolution passes, in registration order
(summary first, then each tag). -/
def Comment.fromObject (de : DeserializerEnv) (obj : JSONComment) :
    Comment × List Int :=
  let s := deserializeDisplayParts de obj.summary
  let tws := obj.blockTags.map (CommentTag.fromObject de)
  ({ summary := s.1,
     blockTags := tws.map Prod.fst,
     modifierTags := jsSetOfList (obj.modifierTags.getD []),
     label := obj.label,
     sourcePath := none, discoveryId := none },
   s.2 ++ (tws.map Prod.snd).flatten)

/-!
Address-annotated object model.  To reason about clone independence
(mutating a clone never affecting its source), every mutable JavaScript
object owned by a comment — the `Comment` itself, its arrays, each display
part object, each `CommentTag`, the modifier `Set` — carries an explicit
address.  A clone executed with an allocator whose next free address is
past every address of the source can only produce objects disjoint from
the source, which is exactly what makes in-place mutation of one side
invisible to the other.  Targets of parts (graph nodes) are not owned and
carry no address: the source's spread copy shares them deliberately.
-/

/-- A display-part object: its address plus its value-level payload. -/
structure PartObj where
  addr : Nat
  part : CommentDisplayPart
deriving DecidableEq

/-- A `CommentTag` object: its own address, the address of its `content`
array and the addressed content parts. -/
structure TagObjA where
  addr : Nat
  tag : Str
  name : Option Str
  contentAddr : Nat
  content : List PartObj
deriving DecidableEq

/-- A `Comment` object with the addresses of the objects it owns. -/
structure CommentObjA where
  addr : Nat
  summaryAddr : Nat
  summary : List PartObj
  blockTagsAddr : Nat
  blockTags : List TagObjA
  modifierAddr : Nat
  modifierTags : List Str
  label : Option Str
  sourcePath : Option Str
  discoveryId : Option Int
deriving DecidableEq

/-- Addresses of a list of part objects. -/
def addrsParts (ps : List PartObj) : List Nat := ps.map PartObj.addr

/-- Addresses owned by a tag: the tag object, its content array, its
content parts. -/
def addrsTag (t : TagObjA) : List Nat :=
  t.addr :: t.contentAddr :: addrsParts t.content

/-- Addresses owned by a comment: the comment object, its two arrays and
modifier set, the summary parts, and everything owned by each tag. -/
def addrsComment (c : CommentObjA) : List Nat :=
  c.addr :: c.summaryAddr :: c.blockTagsAddr :: c.modifierAddr ::
    (addrsParts c.summary ++ (c.blockTags.map addrsTag).flatten)

/-- Freshly copy each part object (`\x7b...p\x7d` inside
`cloneDisplayParts`' map), threading the allocator. -/
def clonePartsA : List PartObj → Nat → List PartObj × Nat
  | [], n => ([], n)
  | p :: ps, n =>
      let r := clonePartsA ps (n + 1)
      (⟨n, p.part⟩ :: r.1, r.2)

/-- `Comment.cloneDisplayParts` with addresses: fresh part objects plus a
fresh array object holding them; returns `((arrayAddr, parts), next)`. -/
def cloneDisplayPartsA (ps : List PartObj) (n : Nat) :
    (Nat × List PartObj) × Nat :=
  let r := clonePartsA ps n
  ((r.2, r.1), r.2 + 1)

/-- The `if (this.name) tag.name = this.name` copy in `CommentTag.clone`:
an empty string is falsy and is not copied. -/
def truthyName : Option Str → Option Str
  | some s => if s = [] then none else some s
  | none => none

/-- `CommentTag.clone` with addresses: clone the content, then allocate
the new `CommentTag` object. -/
def tagCloneA (t : TagObjA) (n : Nat) : TagObjA × Nat :=
  let r := cloneDisplayPartsA t.content n
  (⟨r.2, t.tag, truthyName t.name, r.1.1, r.1.2⟩, r.2 + 1)

/-- `this.blockTags.map((tag) => tag.clone())` with addresses (the array
object for the mapped result is allocated by the caller). -/
def tagsCloneA : List TagObjA → Nat → List TagObjA × Nat
  | [], n => ([], n)
  | t :: ts, n =>
      let r := tagCloneA t n
      let rs := tagsCloneA ts r.2
      (r.1 :: rs.1, rs.2)

/-- `extractLabelTag` on the addressed model (run by the constructor the
clone invokes): splicing the summary array removes one element in place;
no new object is allocated. -/
def extractLabelTagA (c : CommentObjA) : CommentObjA :=
  match c.summary.findIdx? (fun p => isLabelInline p.part) with
  | none => c
  | some i =>
      { c with
        label := some ((c.summary[i]?.getD ⟨0, .text []⟩).part.textOf),
        summary := c.summary.eraseIdx i }

/-- `Comment.clone` with addresses: clone the summary parts (plus array),
clone each block tag, allocate the mapped-tags array, the new `Set`, and
the new `Comment` object; the constructor runs `extractLabelTag`; then
`discoveryId`/`sourcePath` are copied onto the clone. -/
def commentCloneA (c : CommentObjA) (n : Nat) : CommentObjA × Nat :=
  let s := cloneDisplayPartsA c.summary n
  let ts := tagsCloneA c.blockTags s.2
  let c0 : CommentObjA :=
    { addr := ts.2 + 2, summaryAddr := s.1.1, summary := s.1.2,
      blockTagsAddr := ts.2, blockTags := ts.1,
      modifierAddr := ts.2 + 1, modifierTags := c.modifierTags,
      label := none, sourcePath := none, discoveryId := none }
  let c1 := extractLabelTagA c0
  ({ c1 with discoveryId := c.discoveryId, sourcePath := c.sourcePath },
   ts.2 + 3)

/-- The type-expression model needed by `indexed-access.ts`, with object
addresses for clone-independence reasoning.  `leaf` is modelled from the
spec: the other Type variants (not under `src/`) each render their own
syntax (`rendered`) and `clone()` returns a deep, independent copy. -/
inductive TypeObj where
  | indexedAccess (addr : Nat) (objectType indexType : TypeObj)
  | leaf (addr : Nat) (rendered : Str)
deriving DecidableEq

/-- `IndexedAccessType.toString`:
`objectType.toString() + "[" + indexType.toString() + "]"`. -/
def TypeObj.toStr : TypeObj → Str
  | .indexedAccess _ o i => o.toStr ++ '[' :: (i.toStr ++ [']'])
  | .leaf _ r => r

/-- `IndexedAccessType.clone`: clone both children
(`new IndexedAccessType(this.objectType.clone(), this.indexType.clone())`)
and allocate the new node. -/
def TypeObj.cloneA : TypeObj → Nat → TypeObj × Nat
  | .indexedAccess _ o i, n =>
      let ro := o.cloneA n
      let ri := i.cloneA ro.2
      (.indexedAccess ri.2 ro.1 ri.1, ri.2 + 1)
  | .leaf _ r, n => (.leaf n r, n + 1)

/-- All object addresses of a type tree. -/
def TypeObj.addrs : TypeObj → List Nat
  | .indexedAccess a o i => a :: (o.addrs ++ i.addrs)
  | .leaf a _ => [a]

/-- The address-free structure of a type tree (what "same structural
input" means for `toString` determinism). -/
inductive TypeShape where
  | indexedAccess (o i : TypeShape)
  | leaf (r : Str)
deriving DecidableEq

/-- Erase addresses. -/
def TypeObj.shape : TypeObj → TypeShape
  | .indexedAccess _ o i => .indexedAccess o.shape i.shape
  | .leaf _ r => .leaf r

/-! Helper lemmas. -/

lemma cloneDisplayParts_eq (parts : List CommentDisplayPart) :
    cloneDisplayParts parts = parts :=
  List.map_id parts

lemma deserializeDisplayParts_cons (de : DeserializerEnv) (p : JSONPart)
    (ps : List JSONPart) :
    deserializeDisplayParts de (p :: ps) =
      ((deserializePart de p).1 :: (deserializeDisplayParts de ps).1,
        (deserializePart de p).2 ++ (deserializeDisplayParts de ps).2) :=
  rfl

lemma deserializeDisplayParts_append (de : DeserializerEnv)
    (l1 l2 : List JSONPart) :
    deserializeDisplayParts de (l1 ++ l2) =
      ((deserializeDisplayParts de l1).1 ++ (deserializeDisplayParts de l2).1,
        (deserializeDisplayParts de l1).2 ++
          (deserializeDisplayParts de l2).2) := by
  induction l1 with
  | nil => simp [deserializeDisplayParts]
  | cons p ps ih =>
      simp [deserializeDisplayParts_cons, ih, List.append_assoc]

/-- C5: `serializeDisplayParts` maps each target to its wire shape: an
inline tag's `Reflection` target becomes the node's integer id, a string
target stays the string, a symbol-id target becomes its own payload; a
relative link's numeric target becomes `\x7bmedia: n\x7d` and its
`Reflection` target becomes `\x7breflection: id\x7d`. -/
theorem c5_serialize_target_shapes (tag tx : Str) (tsl : Option Str)
    (r : Reflection) (u : Str) (sy : ReflectionSymbolId) (n : Int) :
    serializeDisplayParts [.inlineTag tag tx (some (.refl r)) tsl] =
      some [.inlineTag tag tx (some (.num r.id)) tsl] ∧
    serializeDisplayParts [.inlineTag tag tx (some (.url u)) tsl] =
      some [.inlineTag tag tx (some (.str u)) tsl] ∧
    serializeDisplayParts [.inlineTag tag tx (some (.sym sy)) tsl] =
      some [.inlineTag tag tx (some (.sym sy.payload)) tsl] ∧
    serializeDisplayParts [.relativeLink tx (some (.media n))] =
      some [.relativeLink tx (.media n)] ∧
    serializeDisplayParts [.relativeLink tx (some (.refl r))] =
      some [.relativeLink tx (.reflection r.id)] :=
  ⟨rfl, rfl, rfl, rfl, rfl⟩

/-- C2: deserializing a part list containing a relative link whose
`\x7breflection: oldId\x7d` target fails to resolve (the remapped id, or
`-1` when the remapping is absent, names no live node) completes without
failure, leaves that part's target unset, and emits exactly one warning
naming `oldId` for that part, in part order. -/
theorem c2_dangling_reference (de : DeserializerEnv)
    (pre post : List JSONPart) (tx : Str) (oldId : Int)
    (h : resolveId de oldId = none) :
    deserializeDisplayParts de
        (pre ++ .relativeLink tx (.reflection oldId) :: post) =
      ((deserializeDisplayParts de pre).1 ++
          .relativeLink tx none :: (deserializeDisplayParts de post).1,
        (deserializeDisplayParts de pre).2 ++
          oldId :: (deserializeDisplayParts de post).2) := by
  rw [deserializeDisplayParts_append, deserializeDisplayParts_cons]
  simp [deserializePart, h]

/-- The environment of a deserialization session with an empty project:
every lookup misses. -/
def envNone : DeserializerEnv := ⟨fun _ => none, fun _ => none⟩

/-- Witness for C2: the dangling `\x7breflection: 999\x7d` link of the
spec deserializes to an unset target plus one warning naming `999`. -/
theorem c2_dangling_reference_witness :
    deserializeDisplayParts envNone
        [.relativeLink "x".toList (.reflection 999)] =
      ([.relativeLink "x".toList none], [999]) := by
  have h := c2_dangling_reference envNone [] [] "x".toList 999 rfl
  simpa [deserializeDisplayParts] using h

/-- `toString` only reads the address-free structure of a type tree. -/
lemma toStr_of_shape_eq : ∀ t1 t2 : TypeObj, t1.shape = t2.shape →
    t1.toStr = t2.toStr
  | .leaf _ _, .leaf _ _, h => by
      simp [TypeObj.shape] at h
      simp [TypeObj.toStr, h]
  | .leaf _ _, .indexedAccess _ _ _, h => by simp [TypeObj.shape] at h
  | .indexedAccess _ _ _, .leaf _ _, h => by simp [TypeObj.shape] at h
  | .indexedAccess _ o1 i1, .indexedAccess _ o2 i2, h => by
      simp only [TypeObj.shape, TypeShape.indexedAccess.injEq] at h
      simp [TypeObj.toStr, toStr_of_shape_eq o1 o2 h.1,
        toStr_of_shape_eq i1 i2 h.2]

/-- C9: `IndexedAccessType.toString` is total (a structurally recursive
function of the tree), renders exactly
`objectType.toString() + "[" + indexType.toString() + "]"`, and is stable:
structurally equal inputs (same shape, addresses aside) produce the same
string. -/
theorem c9_indexed_access_toString (a : Nat) (o i : TypeObj)
    (t1 t2 : TypeObj) (h : t1.shape = t2.shape) :
    TypeObj.toStr (.indexedAccess a o i) =
      o.toStr ++ "[".toList ++ i.toStr ++ "]".toList ∧
    t1.toStr = t2.toStr := by
  constructor
  · simp [TypeObj.toStr]
  · exact toStr_of_shape_eq t1 t2 h

/-- Witness for C9 at a concrete tree: `A[B]`, with determinism checked
across two address-distinct copies of the same shape. -/
theorem c9_indexed_access_toString_witness :
    TypeObj.toStr (.indexedAccess 0 (.leaf 1 "A".toList)
        (.leaf 2 "B".toList)) =
      (TypeObj.toStr (.leaf 1 "A".toList)) ++ "[".toList ++
        (TypeObj.toStr (.leaf 2 "B".toList)) ++ "]".toList ∧
    TypeObj.toStr (.leaf 3 "C".toList) = TypeObj.toStr (.leaf 4 "C".toList) :=
  c9_indexed_access_toString 0 (.leaf 1 "A".toList) (.leaf 2 "B".toList)
    (.leaf 3 "C".toList) (.leaf 4 "C".toList) (by decide)

/-- The `(tag, text)` view of an inline-tag part (`none` for the other
variants): what identifies an `@label` inline tag and its payload. -/
def partTagText : CommentDisplayPart → Option (Str × Str)
  | .inlineTag tag tx _ _ => some (tag, tx)
  | _ => none

/-- The same view on serialized parts. -/
def jsonTagText : JSONPart → Option (Str × Str)
  | .inlineTag tag tx _ _ => some (tag, tx)
  | _ => none

/-- Deserializing a part preserves its variant and, for inline tags, its
tag and text. -/
lemma deserializePart_tagText (de : DeserializerEnv) (p : JSONPart) :
    partTagText (deserializePart de p).1 = jsonTagText p := by
  cases p with
  | text t => rfl
  | code t => rfl
  | relativeLink tx tgt =>
      cases tgt with
      | media n => rfl
      | reflection oldId =>
          cases hr : resolveId de oldId <;>
            simp [deserializePart, hr, partTagText, jsonTagText]
  | inlineTag tag tx tgt ts =>
      cases tgt with
      | none => rfl
      | some t =>
          cases t with
          | num oldId =>
              cases hr : resolveId de oldId <;>
                simp [deserializePart, hr, partTagText, jsonTagText]
          | str s => rfl
          | sym pl => rfl

lemma deserializeDisplayParts_tagText (de : DeserializerEnv)
    (l : List JSONPart) :
    (deserializeDisplayParts de l).1.map partTagText =
      l.map jsonTagText := by
  induction l with
  | nil => rfl
  | cons p ps ih =>
      simp [deserializeDisplayParts_cons, deserializePart_tagText, ih]

/-- C10: `Comment.fromObject` takes the label only from the serialized
`label` field and keeps every inline-tag part of the summary — including
`@label` ones — in place with its tag and text; no label extraction
happens on the deserialization path. -/
theorem c10_fromObject_no_label_extraction (de : DeserializerEnv)
    (obj : JSONComment) :
    (Comment.fromObject de obj).1.label = obj.label ∧
    (Comment.fromObject de obj).1.summary.map partTagText =
      obj.summary.map jsonTagText := by
  constructor
  · rfl
  · exact deserializeDisplayParts_tagText de obj.summary

lemma findIdx?_first {α : Type} (p : α → Bool) (pre post : List α) (x : α)
    (hpre : ∀ a ∈ pre, p a = false) (hx : p x = true) :
    (pre ++ x :: post).findIdx? p = some pre.length := by
  induction pre with
  | nil => simp [List.findIdx?_cons, hx]
  | cons a l ih =>
      have ha : p a = false := hpre a (by simp)
      have ih' := ih (fun b hb => hpre b (by simp [hb]))
      simp [List.findIdx?_cons, ha, ih']

/-- The summary refuting C3: two `@label` inline tags. -/
def doubleLabelSummary : List CommentDisplayPart :=
  [.inlineTag "@label".toList "A".toList none none,
   .inlineTag "@label".toList "B".toList none none]

/-- Counterexample to C3 as stated: constructing a Comment whose summary
holds two `@label` inline tags extracts only the first, so the resulting
summary still contains an `@label` inline-tag part. -/
theorem c3_counterexample :
    (Comment.make doubleLabelSummary).label = some "A".toList ∧
    (Comment.make doubleLabelSummary).summary.any isLabelInline = true := by
  decide

/-- C3 amended: the constructor extracts the *first* `@label` inline tag —
`label` becomes that part's text and exactly that part is removed from the
summary; parts after it (including further `@label` tags) are kept, so the
summary is `@label`-free after construction exactly when it contained at
most one such tag. -/
theorem c3_label_extraction_amended (pre post : List CommentDisplayPart)
    (tx : Str) (tgt : Option InlineTarget) (tsl : Option Str)
    (bt : List CommentTag) (mt : List Str)
    (hpre : ∀ p ∈ pre, isLabelInline p = false) :
    (Comment.make (pre ++ .inlineTag "@label".toList tx tgt tsl :: post)
        bt mt).label = some tx ∧
    (Comment.make (pre ++ .inlineTag "@label".toList tx tgt tsl :: post)
        bt mt).summary = pre ++ post ∧
    ((∀ p ∈ post, isLabelInline p = false) →
      ∀ p ∈ (Comment.make
          (pre ++ .inlineTag "@label".toList tx tgt tsl :: post)
          bt mt).summary, isLabelInline p = false) := by
  have hx : isLabelInline (.inlineTag "@label".toList tx tgt tsl) = true := by
    simp [isLabelInline]
  have hfind := findIdx?_first isLabelInline pre post _ hpre hx
  have hget : (pre ++ CommentDisplayPart.inlineTag "@label".toList tx tgt tsl
      :: post)[pre.length]? =
      some (.inlineTag "@label".toList tx tgt tsl) := by
    rw [List.getElem?_append_right (Nat.le_refl _)]
    simp
  have herase : (pre ++ CommentDisplayPart.inlineTag "@label".toList tx tgt
      tsl :: post).eraseIdx pre.length = pre ++ post := by
    rw [List.eraseIdx_append_of_length_le (Nat.le_refl _)]
    simp
  have hsum :
      (Comment.make (pre ++ .inlineTag "@label".toList tx tgt tsl :: post)
        bt mt).summary = pre ++ post := by
    simp only [Comment.make, extractLabelTag]
    rw [hfind]
    dsimp only
    exact herase
  refine ⟨?_, hsum, ?_⟩
  · simp only [Comment.make, extractLabelTag]
    rw [hfind]
    dsimp only
    rw [hget]
    simp [CommentDisplayPart.textOf]
  · intro hpost p hp
    rw [hsum] at hp
    rcases List.mem_append.1 hp with h | h
    · exact hpre p h
    · exact hpost p h

/-- Witness for the amended C3 at the spec's example
`\x7b@label "Foo"\x7d`. -/
theorem c3_label_extraction_amended_witness :
    (Comment.make [.inlineTag "@label".toList "Foo".toList none none]).label =
      some "Foo".toList ∧
    (Comment.make
        [.inlineTag "@label".toList "Foo".toList none none]).summary =
      [] ∧
    ((∀ p ∈ ([] : List CommentDisplayPart), isLabelInline p = false) →
      ∀ p ∈ (Comment.make
          [.inlineTag "@label".toList "Foo".toList none none]).summary,
        isLabelInline p = false) := by
  have h := c3_label_extraction_amended [] [] "Foo".toList none none [] []
    (by intro p hp; cases hp)
  simpa using h

/-- A trimmed string trims to itself: `trim` is idempotent. -/
lemma jsTrim_idem (s : Str) : jsTrim (jsTrim s) = jsTrim s := by
  unfold jsTrim
  have h1 : List.dropWhile isJsWs
      (List.rdropWhile isJsWs (List.dropWhile isJsWs s)) =
      List.rdropWhile isJsWs (List.dropWhile isJsWs s) := by
    rw [List.dropWhile_eq_self_iff]
    intro hl
    have hpre := List.rdropWhile_prefix isJsWs (List.dropWhile isJsWs s)
    have hlen : 0 < (List.dropWhile isJsWs s).length :=
      Nat.lt_of_lt_of_le hl hpre.length_le
    have hhead := List.dropWhile_get_zero_not isJsWs s hlen
    have hsame : (List.rdropWhile isJsWs (List.dropWhile isJsWs s)).get
        ⟨0, hl⟩ = (List.dropWhile isJsWs s).get ⟨0, hlen⟩ := by
      simp only [List.get_eq_getElem]
      exact hpre.getElem hl
    rw [hsame]
    exact hhead
  rw [h1, List.rdropWhile_idempotent]

/-- Counterexample to C6 as stated: with no newline in any part, the
header is the raw combination of the parts, which is not trimmed. -/
theorem c6_counterexample :
    splitPartsToHeaderAndBody [.text " x ".toList] =
      ⟨" x ".toList, []⟩ ∧
    jsTrim " x ".toList ≠ " x ".toList := by
  constructor
  · decide
  · decide

/-- When the newline search succeeds, every control path of the split
returns either an empty header or a trimmed one. -/
lemma split_header_of_found (parts : List CommentDisplayPart) (i : Nat)
    (hfind : parts.findIdx? partNewlinePred = some i) :
    (splitPartsToHeaderAndBody parts).header = [] ∨
    ∃ h, (splitPartsToHeaderAndBody parts).header = jsTrim h := by
  unfold splitPartsToHeaderAndBody
  rw [hfind]
  dsimp only
  split
  · exact Or.inl rfl
  · split
    · exact Or.inr ⟨_, rfl⟩
    · exact Or.inr ⟨_, rfl⟩

/-- C6 amended: the split happens at the first newline —
`[text "Line1\nLine2"]` yields header `"Line1"` and body
`[text "Line2"]`; when no text or code part contains a newline the header
is `combineDisplayParts` of the whole list (returned untrimmed) and the
body is empty; whenever some text or code part does contain a newline,
the returned header is trimmed of surrounding whitespace. -/
theorem c6_split_amended :
    splitPartsToHeaderAndBody [.text "Line1\nLine2".toList] =
      ⟨"Line1".toList, [.text "Line2".toList]⟩ ∧
    (∀ parts : List CommentDisplayPart,
      (∀ p ∈ parts, partNewlinePred p = false) →
      splitPartsToHeaderAndBody parts = ⟨combineDisplayParts parts, []⟩) ∧
    (∀ parts : List CommentDisplayPart,
      parts.any partNewlinePred = true →
      jsTrim (splitPartsToHeaderAndBody parts).header =
        (splitPartsToHeaderAndBody parts).header) := by
  refine ⟨by decide, ?_, ?_⟩
  · intro parts hno
    have hfind : parts.findIdx? partNewlinePred = none :=
      List.findIdx?_eq_none_iff.2 hno
    unfold splitPartsToHeaderAndBody
    rw [hfind]
  · intro parts hany
    obtain ⟨i, hfind⟩ : ∃ i, parts.findIdx? partNewlinePred = some i := by
      rcases List.any_eq_true.1 hany with ⟨x, hx, hpx⟩
      exact ⟨_, List.findIdx?_eq_some_of_exists ⟨x, hx, hpx⟩⟩
    rcases split_header_of_found parts i hfind with h | ⟨hs, hh⟩
    · rw [h]
      rfl
    · rw [hh]
      exact jsTrim_idem hs

/-- Witness for the amended C6: the no-newline case at
`[text "Only one line"]` and the trimmed-header case at
`[text "a\nb"]`. -/
theorem c6_split_amended_witness :
    splitPartsToHeaderAndBody [.text "Only one line".toList] =
      ⟨combineDisplayParts [.text "Only one line".toList], []⟩ ∧
    jsTrim (splitPartsToHeaderAndBody [.text "a\nb".toList]).header =
      (splitPartsToHeaderAndBody [.text "a\nb".toList]).header :=
  ⟨c6_split_amended.2.1 _ (by decide), c6_split_amended.2.2 _ (by decide)⟩

/-- C7: markdown rendering of inline tags.  `@linkcode` with a resolvable
target (a truthy URL string, or a graph node whose resolved URL is
nonempty) wraps the visible text in code formatting (backticks, or
`<code>` in HTML mode) while `@link` and `@linkplain` do not; a link tag
with no target renders its raw text unchanged; `@label` and
`@inheritdoc` render to nothing; any other inline tag renders verbatim
as `\x7b@tag text\x7d` instead of failing. -/
theorem c7_markdown_inline_tags (u tx : Str) (tsl : Option Str)
    (tgt : Option InlineTarget) (r : Reflection)
    (urlTo : Reflection → Str) (cs : Int → Str) (tag : Str) (b : Bool)
    (hu : u ≠ []) (hur : urlTo r ≠ [])
    (h1 : tag ≠ "@label".toList) (h2 : tag ≠ "@inheritdoc".toList)
    (h3 : tag ≠ "@link".toList) (h4 : tag ≠ "@linkcode".toList)
    (h5 : tag ≠ "@linkplain".toList) :
    displayPartsToMarkdown
        [.inlineTag "@linkcode".toList tx (some (.url u)) tsl]
        urlTo cs false =
      "[\x60".toList ++ tx ++ "\x60](".toList ++ u ++ ")".toList ∧
    displayPartsToMarkdown
        [.inlineTag "@link".toList tx (some (.url u)) tsl]
        urlTo cs false =
      "[".toList ++ tx ++ "](".toList ++ u ++ ")".toList ∧
    displayPartsToMarkdown
        [.inlineTag "@linkplain".toList tx (some (.url u)) tsl]
        urlTo cs false =
      "[".toList ++ tx ++ "](".toList ++ u ++ ")".toList ∧
    displayPartsToMarkdown
        [.inlineTag "@linkcode".toList tx (some (.refl r)) tsl]
        urlTo cs false =
      "[\x60".toList ++ tx ++ "\x60](".toList ++ urlTo r ++ ")".toList ∧
    displayPartsToMarkdown
        [.inlineTag "@linkcode".toList tx (some (.url u)) tsl]
        urlTo cs true =
      "<a href=\"".toList ++ u ++ "\"><code>".toList ++ tx ++
        "</code></a>".toList ∧
    displayPartsToMarkdown
        [.inlineTag "@link".toList tx (some (.url u)) tsl]
        urlTo cs true =
      "<a href=\"".toList ++ u ++ "\">".toList ++ tx ++ "</a>".toList ∧
    displayPartsToMarkdown [.inlineTag "@link".toList tx none tsl]
        urlTo cs b = tx ∧
    displayPartsToMarkdown [.inlineTag "@linkcode".toList tx none tsl]
        urlTo cs b = tx ∧
    displayPartsToMarkdown [.inlineTag "@label".toList tx tgt tsl]
        urlTo cs b = [] ∧
    displayPartsToMarkdown [.inlineTag "@inheritdoc".toList tx tgt tsl]
        urlTo cs b = [] ∧
    displayPartsToMarkdown [.inlineTag tag tx tgt tsl] urlTo cs b =
      '\x7b' :: (tag ++ ' ' :: tx) ++ ['\x7d'] := by
  have hu2 : u.isEmpty = false := List.isEmpty_eq_false.2 hu
  have hur2 : (urlTo r).isEmpty = false := List.isEmpty_eq_false.2 hur
  refine ⟨?_, ?_, ?_, ?_, ?_, ?_, ?_, ?_, ?_, ?_, ?_⟩
  · simp [displayPartsToMarkdown, renderLinkTag, inlineTargetTruthy, hu2, hu]
  · simp [displayPartsToMarkdown, renderLinkTag, inlineTargetTruthy, hu2, hu]
  · simp [displayPartsToMarkdown, renderLinkTag, inlineTargetTruthy, hu2, hu]
  · simp [displayPartsToMarkdown, renderLinkTag, inlineTargetTruthy, hur2,
      hur]
  · simp [displayPartsToMarkdown, renderLinkTag, inlineTargetTruthy, hu2, hu]
  · simp [displayPartsToMarkdown, renderLinkTag, inlineTargetTruthy, hu2, hu]
  · simp [displayPartsToMarkdown, renderLinkTag]
  · simp [displayPartsToMarkdown, renderLinkTag]
  · simp [displayPartsToMarkdown]
  · simp [displayPartsToMarkdown]
  · simp only [displayPartsToMarkdown, List.map]
    have e1 : (decide (tag = "@label".toList) ||
        decide (tag = "@inheritdoc".toList)) = false := by
      simp only [Bool.or_eq_false_iff, decide_eq_false_iff_not]
      exact ⟨h1, h2⟩
    have e2 : (decide (tag = "@link".toList) ||
        decide (tag = "@linkcode".toList) ||
        decide (tag = "@linkplain".toList)) = false := by
      simp only [Bool.or_eq_false_iff, decide_eq_false_iff_not]
      exact ⟨⟨h3, h4⟩, h5⟩
    rw [if_neg (by rw [e1]; simp), if_neg (by rw [e2]; simp)]
    simp

/-- A reflection for the C7 witness. -/
def exReflLink : Reflection := ⟨7, 0, "RL".toList⟩

/-- The C7 witness URL resolver: every node resolves to the nonempty
URL `"u"`. -/
def exUrlTo : Reflection → Str := fun _ => "u".toList

/-- The C7 witness class resolver. -/
def exCS : Int → Str := fun _ => "cls".toList

/-- Witness for C7 at concrete inputs: the URL-string target `"http"`,
a node resolving to `"u"`, and the unknown tag `@custom`, with every
truthiness and tag-inequality hypothesis discharged concretely. -/
theorem c7_markdown_inline_tags_witness :
    displayPartsToMarkdown
        [.inlineTag "@linkcode".toList "x".toList
          (some (.url "http".toList)) none] exUrlTo exCS false =
      "[\x60".toList ++ "x".toList ++ "\x60](".toList ++ "http".toList ++
        ")".toList ∧
    displayPartsToMarkdown
        [.inlineTag "@link".toList "x".toList
          (some (.url "http".toList)) none] exUrlTo exCS false =
      "[".toList ++ "x".toList ++ "](".toList ++ "http".toList ++
        ")".toList ∧
    displayPartsToMarkdown
        [.inlineTag "@linkplain".toList "x".toList
          (some (.url "http".toList)) none] exUrlTo exCS false =
      "[".toList ++ "x".toList ++ "](".toList ++ "http".toList ++
        ")".toList ∧
    displayPartsToMarkdown
        [.inlineTag "@linkcode".toList "x".toList
          (some (.refl exReflLink)) none] exUrlTo exCS false =
      "[\x60".toList ++ "x".toList ++ "\x60](".toList ++
        exUrlTo exReflLink ++ ")".toList ∧
    displayPartsToMarkdown
        [.inlineTag "@linkcode".toList "x".toList
          (some (.url "http".toList)) none] exUrlTo exCS true =
      "<a href=\"".toList ++ "http".toList ++ "\"><code>".toList ++
        "x".toList ++ "</code></a>".toList ∧
    displayPartsToMarkdown
        [.inlineTag "@link".toList "x".toList
          (some (.url "http".toList)) none] exUrlTo exCS true =
      "<a href=\"".toList ++ "http".toList ++ "\">".toList ++
        "x".toList ++ "</a>".toList ∧
    displayPartsToMarkdown
        [.inlineTag "@link".toList "x".toList none none]
        exUrlTo exCS false = "x".toList ∧
    displayPartsToMarkdown
        [.inlineTag "@linkcode".toList "x".toList none none]
        exUrlTo exCS false = "x".toList ∧
    displayPartsToMarkdown
        [.inlineTag "@label".toList "x".toList none none]
        exUrlTo exCS false = [] ∧
    displayPartsToMarkdown
        [.inlineTag "@inheritdoc".toList "x".toList none none]
        exUrlTo exCS false = [] ∧
    displayPartsToMarkdown
        [.inlineTag "@custom".toList "x".toList none none]
        exUrlTo exCS false =
      '\x7b' :: ("@custom".toList ++ ' ' :: "x".toList) ++ ['\x7d'] :=
  c7_markdown_inline_tags "http".toList "x".toList none none exReflLink
    exUrlTo exCS "@custom".toList false (by decide) (by decide)
    (by decide) (by decide) (by decide) (by decide) (by decide)

/-- Sanity check: an empty-string target is falsy (`if (part.target)`),
so the program renders the raw text with no link markup. -/
example :
    displayPartsToMarkdown
        [.inlineTag "@linkcode".toList "x".toList (some (.url [])) none]
        exUrlTo exCS false = "x".toList := by decide

/-- Sanity check: a symbol-id target gives no `url`; markdown mode falls
back to the code-wrapped text, HTML mode to the raw text (the source's
`url ? ... : text` vs `url ? ... : part.text` asymmetry). -/
example :
    displayPartsToMarkdown
        [.inlineTag "@linkcode".toList "x".toList
          (some (.sym ⟨"s".toList⟩)) none] exUrlTo exCS false =
      "\x60x\x60".toList ∧
    displayPartsToMarkdown
        [.inlineTag "@linkcode".toList "x".toList
          (some (.sym ⟨"s".toList⟩)) none] exUrlTo exCS true =
      "x".toList := by decide

/-- A part matched by the newline search has a newline in its text. -/
lemma partNewlinePred_textOf (p : CommentDisplayPart) :
    partNewlinePred p = true → (p.textOf).contains '\n' = true := by
  cases p <;> simp [partNewlinePred, CommentDisplayPart.textOf]

/-- `indexOf("\n")` misses exactly when `includes("\n")` is false. -/
lemma findIdx?_nl_of_contains_false (t : Str)
    (h : t.contains '\n' = false) :
    t.findIdx? (· == '\n') = none := by
  rw [List.findIdx?_eq_none_iff]
  intro x hx
  cases hbe : x == '\n'
  · rfl
  · exfalso
    have hxe : x = '\n' := eq_of_beq hbe
    subst hxe
    have hc : List.contains t '\n' = true := List.elem_iff.2 hx
    rw [hc] at h
    cases h

/-- The hypothesis shape of C4: the part at the split position is a code
part whose text contains a newline. -/
def isCodeWithNl : Option CommentDisplayPart → Bool
  | some (.code t) => t.contains '\n'
  | _ => false

/-- C4: when the first part whose text contains a newline is a code part
(at index `i`), the split never divides that code part: the body is the
whole suffix starting at the code part, and the header is built from the
parts before the backed-up index — empty when the code part is first
(`i = 0`), and otherwise the (trimmed) combination of the first `i - 1`
parts followed by the raw text of part `i - 1`. -/
theorem c4_code_fence (parts : List CommentDisplayPart) (i : Nat)
    (hcode : isCodeWithNl parts[i]? = true)
    (hbefore : ∀ j, j < i → ∀ p, parts[j]? = some p →
      (p.textOf).contains '\n' = false) :
    (splitPartsToHeaderAndBody parts).body =
      cloneDisplayParts (parts.drop i) ∧
    (i = 0 → (splitPartsToHeaderAndBody parts).header = []) ∧
    (∀ k, i = k + 1 →
      (splitPartsToHeaderAndBody parts).header =
        jsTrim (combineDisplayParts (parts.take k) ++
          (parts[k]?.getD (.text [])).textOf)) := by
  have hpt : ∃ t, parts[i]? = some (.code t) ∧ t.contains '\n' = true := by
    rcases h : parts[i]? with _ | p
    · rw [h] at hcode
      exact absurd hcode (by simp [isCodeWithNl])
    · cases p with
      | code t =>
          rw [h] at hcode
          exact ⟨t, rfl, by simpa [isCodeWithNl] using hcode⟩
      | text t => rw [h] at hcode; exact absurd hcode (by simp [isCodeWithNl])
      | inlineTag a b c d =>
          rw [h] at hcode; exact absurd hcode (by simp [isCodeWithNl])
      | relativeLink a b =>
          rw [h] at hcode; exact absurd hcode (by simp [isCodeWithNl])
  obtain ⟨t, hp, ht⟩ := hpt
  have hi : i < parts.length := by
    by_contra hle
    rw [List.getElem?_eq_none (by omega)] at hp
    cases hp
  have hgi : parts[i] = .code t := by
    have h2 := List.getElem?_eq_getElem hi
    rw [hp] at h2
    exact (Option.some_inj.1 h2).symm
  have hpredfalse : ∀ a ∈ parts.take i, partNewlinePred a = false := by
    intro a ha
    obtain ⟨j, hj, hja⟩ := List.getElem_of_mem ha
    have hjlt : j < i := by
      have := hj
      simp [List.length_take] at this
      omega
    have hja' : a = parts[j] := by
      rw [← hja, List.getElem_take]
    have hcj := hbefore j hjlt parts[j]
      (List.getElem?_eq_getElem (by omega))
    cases hpp : partNewlinePred a
    · rfl
    · exfalso
      have h3 := partNewlinePred_textOf a hpp
      rw [hja'] at h3
      rw [h3] at hcj
      cases hcj
  have hdecomp : parts = parts.take i ++
      CommentDisplayPart.code t :: parts.drop (i + 1) := by
    conv_lhs => rw [← List.take_append_drop i parts]
    rw [List.drop_eq_getElem_cons hi, hgi]
  have hfind : parts.findIdx? partNewlinePred = some i := by
    conv_lhs => rw [hdecomp]
    rw [findIdx?_first partNewlinePred _ _ _ hpredfalse
      (by simpa [partNewlinePred] using ht)]
    simp [List.length_take]
    omega
  have htne : t ≠ [] := by
    intro he
    rw [he] at ht
    cases ht
  unfold splitPartsToHeaderAndBody
  rw [hfind]
  dsimp only
  rw [hp]
  dsimp only
  cases i with
  | zero =>
      rw [if_pos (by decide : (true && ((0 : Nat) == 0)) = true)]
      refine ⟨by rw [List.drop_zero], fun _ => rfl, ?_⟩
      intro k hk
      exact absurd hk (by omega)
  | succ k =>
      have hb0 : (true && ((k + 1 : Nat) == 0)) = false := by simp
      rw [hb0, if_neg Bool.false_ne_true,
        if_pos (rfl : (true : Bool) = true), Nat.add_sub_cancel]
      have hg : parts[k]? = some parts[k] :=
        List.getElem?_eq_getElem (by omega)
      have hnlk := hbefore k (by omega) parts[k] hg
      have hfindnl : ((parts[k]?.getD (.text [])).textOf).findIdx?
          (· == '\n') = none := by
        rw [hg]
        exact findIdx?_nl_of_contains_false _ hnlk
      rw [hfindnl]
      dsimp only
      have hdropk : parts.drop (k + 1) =
          CommentDisplayPart.code t :: parts.drop (k + 2) := by
        rw [List.drop_eq_getElem_cons hi, hgi]
      refine ⟨?_, ?_, ?_⟩
      · rw [cloneDisplayParts_eq, hdropk]
        simp [dropLeadingEmptyText, CommentDisplayPart.textOf, htne]
      · intro h0
        exact absurd h0 (by omega)
      · intro k' hk'
        have : k' = k := by omega
        subst this
        rfl

/-- The spec's code-fence example:
`[text "Intro", code "a\nb", text "more"]`. -/
def exCodeFenceParts : List CommentDisplayPart :=
  [.text "Intro".toList, .code "a\nb".toList, .text "more".toList]

/-- Witness for C4 at the spec's example: the code part (index 1) goes
whole into the body and the header stops at `"Intro"`. -/
theorem c4_code_fence_witness :
    (splitPartsToHeaderAndBody exCodeFenceParts).body =
      cloneDisplayParts (exCodeFenceParts.drop 1) ∧
    (1 = 0 → (splitPartsToHeaderAndBody exCodeFenceParts).header = []) ∧
    (∀ k, 1 = k + 1 →
      (splitPartsToHeaderAndBody exCodeFenceParts).header =
        jsTrim (combineDisplayParts (exCodeFenceParts.take k) ++
          (exCodeFenceParts[k]?.getD (.text [])).textOf)) :=
  c4_code_fence exCodeFenceParts 1 (by decide)
    (by
      intro j hj p hp
      have hj0 : j = 0 := by omega
      subst hj0
      have h3 : (some (CommentDisplayPart.text "Intro".toList) :
          Option CommentDisplayPart) = some p := hp
      have h2 : p = CommentDisplayPart.text "Intro".toList :=
        (Option.some_inj.1 h3).symm
      subst h2
      decide)

/-- Sanity check: the concrete result at the spec's code-fence example. -/
example :
    splitPartsToHeaderAndBody exCodeFenceParts =
      ⟨"Intro".toList, [.code "a\nb".toList, .text "more".toList]⟩ := by
  decide

/-- The address of a type-tree root object. -/
def TypeObj.rootAddr : TypeObj → Nat
  | .indexedAccess a _ _ => a
  | .leaf a _ => a

lemma clonePartsA_le : ∀ (ps : List PartObj) (n : Nat),
    n ≤ (clonePartsA ps n).2
  | [], _ => Nat.le_refl _
  | p :: ps, n => by
      have h := clonePartsA_le ps (n + 1)
      simp only [clonePartsA]
      omega

lemma clonePartsA_ge : ∀ (ps : List PartObj) (n : Nat),
    ∀ a ∈ addrsParts (clonePartsA ps n).1, n ≤ a
  | [], n => by simp [clonePartsA, addrsParts]
  | p :: ps, n => by
      intro a ha
      simp only [clonePartsA, addrsParts, List.map, List.mem_cons] at ha
      rcases ha with rfl | ha
      · exact Nat.le_refl _
      · have h := clonePartsA_ge ps (n + 1) a (by simpa [addrsParts] using ha)
        omega

lemma tagCloneA_le (t : TagObjA) (n : Nat) : n ≤ (tagCloneA t n).2 := by
  have h := clonePartsA_le t.content n
  simp only [tagCloneA, cloneDisplayPartsA]
  omega

lemma tagCloneA_ge (t : TagObjA) (n : Nat) :
    ∀ a ∈ addrsTag (tagCloneA t n).1, n ≤ a := by
  intro a ha
  have hle := clonePartsA_le t.content n
  simp only [tagCloneA, cloneDisplayPartsA, addrsTag, List.mem_cons] at ha
  rcases ha with rfl | rfl | ha
  · omega
  · omega
  · exact clonePartsA_ge t.content n a ha

lemma tagsCloneA_le : ∀ (ts : List TagObjA) (n : Nat),
    n ≤ (tagsCloneA ts n).2
  | [], _ => Nat.le_refl _
  | t :: ts, n => by
      have h1 := tagCloneA_le t n
      have h2 := tagsCloneA_le ts (tagCloneA t n).2
      simp only [tagsCloneA]
      omega

lemma tagsCloneA_ge : ∀ (ts : List TagObjA) (n : Nat),
    ∀ u ∈ (tagsCloneA ts n).1, ∀ a ∈ addrsTag u, n ≤ a
  | [], n => by simp [tagsCloneA]
  | t :: ts, n => by
      intro u hu a ha
      simp only [tagsCloneA, List.mem_cons] at hu
      rcases hu with rfl | hu
      · exact tagCloneA_ge t n a ha
      · have h1 := tagCloneA_le t n
        have h2 := tagsCloneA_ge ts (tagCloneA t n).2 u hu a ha
        omega

/-- Splicing the `@label` part out of the summary only removes owned
objects: the addresses of the extracted comment are among those of the
input. -/
lemma addrsComment_extract (c : CommentObjA) :
    addrsComment (extractLabelTagA c) ⊆ addrsComment c := by
  unfold extractLabelTagA
  split
  · exact fun a ha => ha
  · intro a ha
    simp only [addrsComment, List.mem_cons, List.mem_append] at ha ⊢
    rcases ha with h | h | h | h | h | h
    · exact Or.inl h
    · exact Or.inr (Or.inl h)
    · exact Or.inr (Or.inr (Or.inl h))
    · exact Or.inr (Or.inr (Or.inr (Or.inl h)))
    · refine Or.inr (Or.inr (Or.inr (Or.inr (Or.inl ?_))))
      exact ((List.eraseIdx_sublist c.summary _).map PartObj.addr).subset h
    · exact Or.inr (Or.inr (Or.inr (Or.inr (Or.inr h))))

lemma addrsComment_update (c : CommentObjA) (d : Option Int)
    (sp : Option Str) :
    addrsComment { c with discoveryId := d, sourcePath := sp } =
      addrsComment c :=
  rfl

/-- Every object owned by the result of `Comment.clone` run with next
free address `n` has an address at least `n`. -/
lemma commentCloneA_ge (c : CommentObjA) (n : Nat) :
    ∀ a ∈ addrsComment (commentCloneA c n).1, n ≤ a := by
  intro a ha
  unfold commentCloneA at ha
  rw [addrsComment_update] at ha
  have ha2 := addrsComment_extract _ ha
  have hps := clonePartsA_le c.summary n
  have hts := tagsCloneA_le c.blockTags (cloneDisplayPartsA c.summary n).2
  have hts' : (clonePartsA c.summary n).2 + 1 ≤
      (tagsCloneA c.blockTags ((clonePartsA c.summary n).2 + 1)).2 := by
    simpa [cloneDisplayPartsA] using hts
  simp only [addrsComment, cloneDisplayPartsA, List.mem_cons,
    List.mem_append] at ha2
  rcases ha2 with rfl | rfl | rfl | rfl | h | h
  · omega
  · omega
  · omega
  · omega
  · exact clonePartsA_ge c.summary n a h
  · rw [List.mem_flatten] at h
    obtain ⟨l, hl, hal⟩ := h
    rw [List.mem_map] at hl
    obtain ⟨u, hu, rfl⟩ := hl
    have := tagsCloneA_ge c.blockTags ((clonePartsA c.summary n).2 + 1) u
      (by simpa [cloneDisplayPartsA] using hu) a hal
    omega

lemma typeCloneA_le : ∀ (t : TypeObj) (m : Nat), m ≤ (t.cloneA m).2
  | .leaf _ _, m => by simp [TypeObj.cloneA]
  | .indexedAccess _ o i, m => by
      have h1 := typeCloneA_le o m
      have h2 := typeCloneA_le i (o.cloneA m).2
      simp only [TypeObj.cloneA]
      omega

lemma typeCloneA_ge : ∀ (t : TypeObj) (m : Nat),
    ∀ a ∈ (t.cloneA m).1.addrs, m ≤ a
  | .leaf _ _, m => by simp [TypeObj.cloneA, TypeObj.addrs]
  | .indexedAccess _ o i, m => by
      intro x hx
      have h1 := typeCloneA_le o m
      have h2 := typeCloneA_le i (o.cloneA m).2
      simp only [TypeObj.cloneA, TypeObj.addrs, List.mem_cons,
        List.mem_append] at hx
      rcases hx with rfl | hx | hx
      · omega
      · exact typeCloneA_ge o m x hx
      · have h3 := typeCloneA_ge i (o.cloneA m).2 x hx
        omega

lemma rootAddr_mem_addrs (t : TypeObj) : t.rootAddr ∈ t.addrs := by
  cases t <;> simp [TypeObj.rootAddr, TypeObj.addrs]

/-- C8: clone independence.  Run with a fresh allocator (every address of
the source below the next free address `n`/`m`), `Comment.clone` and
`IndexedAccessType.clone` allocate only new objects: the clone is not the
same object as the source, and no mutable object reachable through the
clone (summary part objects, tag objects, content arrays, the modifier
set, child type nodes) is an object of the source — so mutating fields
through one side can never change the other. -/
theorem c8_clone_independence (c : CommentObjA) (n : Nat)
    (hc : ∀ a ∈ addrsComment c, a < n)
    (t : TypeObj) (m : Nat) (ht : ∀ a ∈ t.addrs, a < m) :
    ((commentCloneA c n).1.addr ≠ c.addr ∧
      ∀ a ∈ addrsComment (commentCloneA c n).1, a ∉ addrsComment c) ∧
    ((t.cloneA m).1.rootAddr ≠ t.rootAddr ∧
      ∀ a ∈ (t.cloneA m).1.addrs, a ∉ t.addrs) := by
  have hdisjC : ∀ a ∈ addrsComment (commentCloneA c n).1,
      a ∉ addrsComment c := by
    intro a ha hac
    have h1 := commentCloneA_ge c n a ha
    have h2 := hc a hac
    omega
  have hdisjT : ∀ a ∈ (t.cloneA m).1.addrs, a ∉ t.addrs := by
    intro a ha hat
    have h1 := typeCloneA_ge t m a ha
    have h2 := ht a hat
    omega
  refine ⟨⟨?_, hdisjC⟩, ⟨?_, hdisjT⟩⟩
  · intro he
    have h1 : (commentCloneA c n).1.addr ∈
        addrsComment (commentCloneA c n).1 := by
      simp [addrsComment]
    have h2 : c.addr ∈ addrsComment c := by simp [addrsComment]
    exact hdisjC _ h1 (he ▸ h2)
  · intro he
    exact hdisjT _ (rootAddr_mem_addrs _)
      (he ▸ rootAddr_mem_addrs t)

/-- A concrete addressed comment for the C8 witness: one summary part,
one block tag with one content part, one modifier tag. -/
def exCommentObj : CommentObjA :=
  { addr := 0, summaryAddr := 1,
    summary := [⟨2, .text "hello".toList⟩],
    blockTagsAddr := 3,
    blockTags := [⟨4, "@returns".toList, some "r".toList, 5,
      [⟨6, .code "x".toList⟩]⟩],
    modifierAddr := 7, modifierTags := ["@alpha".toList],
    label := none, sourcePath := some "f.ts".toList, discoveryId := some 9 }

/-- A concrete addressed indexed-access type for the C8 witness. -/
def exTypeObj : TypeObj :=
  .indexedAccess 0 (.leaf 1 "A".toList) (.leaf 2 "B".toList)

/-- Witness for C8 at concrete objects with allocator position 100/10. -/
theorem c8_clone_independence_witness :
    ((commentCloneA exCommentObj 100).1.addr ≠ exCommentObj.addr ∧
      ∀ a ∈ addrsComment (commentCloneA exCommentObj 100).1,
        a ∉ addrsComment exCommentObj) ∧
    ((exTypeObj.cloneA 10).1.rootAddr ≠ exTypeObj.rootAddr ∧
      ∀ a ∈ (exTypeObj.cloneA 10).1.addrs, a ∉ exTypeObj.addrs) :=
  c8_clone_independence exCommentObj 100 (by decide) exTypeObj 10
    (by decide)

/-- The `Reflection` targets occurring in one display part (those the
round trip must re-resolve from their serialized ids). -/
def partRefls : CommentDisplayPart → List Reflection
  | .inlineTag _ _ (some (.refl r)) _ => [r]
  | .relativeLink _ (some (.refl r)) => [r]
  | _ => []

/-- All `Reflection` targets of a part list. -/
def partsRefls (l : List CommentDisplayPart) : List Reflection :=
  (l.map partRefls).flatten

/-- All `Reflection` targets of a comment (summary and tag contents). -/
def commentRefls (c : Comment) : List Reflection :=
  partsRefls c.summary ++
    (c.blockTags.map (fun t => partsRefls t.content)).flatten

/-- Every relative link of the list has a present target. -/
def partsRelOk (l : List CommentDisplayPart) : Bool :=
  l.all partRelOk

/-- Every relative link of the comment has a present target (serialization
terminates normally exactly on such comments). -/
def commentRelOk (c : Comment) : Bool :=
  partsRelOk c.summary && c.blockTags.all (fun t => partsRelOk t.content)

lemma partsRefls_cons (p : CommentDisplayPart)
    (ps : List CommentDisplayPart) :
    partsRefls (p :: ps) = partRefls p ++ partsRefls ps := by
  simp [partsRefls]

lemma jsSetOfList_aux (l : List Str) : ∀ (acc : List Str), l.Nodup →
    (∀ x ∈ l, x ∉ acc) →
    l.foldl (fun a x => if x ∈ a then a else a ++ [x]) acc = acc ++ l := by
  induction l with
  | nil => intro acc _ _; simp
  | cons x l ih =>
      intro acc hnd hdis
      have hx : x ∉ acc := hdis x (by simp)
      rw [List.foldl_cons, if_neg hx]
      have hdis' : ∀ y ∈ l, y ∉ acc ++ [x] := by
        intro y hy hmem
        rcases List.mem_append.1 hmem with h | h
        · exact hdis y (List.mem_cons_of_mem _ hy) h
        · have hyx : y = x := List.mem_singleton.1 h
          exact (List.nodup_cons.1 hnd).1 (hyx ▸ hy)
      rw [ih (acc ++ [x]) (List.nodup_cons.1 hnd).2 hdis']
      simp

/-- `new Set(l)` leaves a duplicate-free list unchanged. -/
lemma jsSetOfList_of_nodup (l : List Str) (h : l.Nodup) :
    jsSetOfList l = l := by
  unfold jsSetOfList
  rw [jsSetOfList_aux l [] h (by simp)]
  simp

/-- One-part round trip: serializing then deserializing a display part
whose reflection targets re-resolve to themselves gives the part back,
with no warnings. -/
lemma roundPart (de : DeserializerEnv) (p : CommentDisplayPart)
    (hok : partRelOk p = true)
    (hres : ∀ r ∈ partRefls p, resolveId de r.id = some r) :
    ∃ jp, serializePart p = some jp ∧ deserializePart de jp = (p, []) := by
  cases p with
  | text t => exact ⟨_, rfl, rfl⟩
  | code t => exact ⟨_, rfl, rfl⟩
  | inlineTag tag tx tgt ts =>
      cases tgt with
      | none => exact ⟨_, rfl, rfl⟩
      | some tg =>
          cases tg with
          | url s => exact ⟨_, rfl, rfl⟩
          | sym s => exact ⟨_, rfl, rfl⟩
          | refl r =>
              have hr := hres r (by simp [partRefls])
              refine ⟨_, rfl, ?_⟩
              simp [deserializePart, hr]
  | relativeLink tx tgt =>
      cases tgt with
      | none => simp [partRelOk] at hok
      | some tg =>
          cases tg with
          | media nn => exact ⟨_, rfl, rfl⟩
          | refl r =>
              have hr := hres r (by simp [partRefls])
              refine ⟨_, rfl, ?_⟩
              simp [deserializePart, hr]

/-- Part-list round trip. -/
lemma roundParts (de : DeserializerEnv) (ps : List CommentDisplayPart)
    (hok : partsRelOk ps = true)
    (hres : ∀ r ∈ partsRefls ps, resolveId de r.id = some r) :
    ∃ js, serializeDisplayParts ps = some js ∧
      deserializeDisplayParts de js = (ps, []) := by
  induction ps with
  | nil => exact ⟨[], rfl, rfl⟩
  | cons p ps ih =>
      have hok' := hok
      simp only [partsRelOk, List.all_cons, Bool.and_eq_true] at hok'
      have hresp : ∀ r ∈ partRefls p, resolveId de r.id = some r := by
        intro r hr
        exact hres r (by rw [partsRefls_cons]; exact List.mem_append_left _ hr)
      have hresps : ∀ r ∈ partsRefls ps, resolveId de r.id = some r := by
        intro r hr
        exact hres r
          (by rw [partsRefls_cons]; exact List.mem_append_right _ hr)
      obtain ⟨jp, hs, hd⟩ := roundPart de p hok'.1 hresp
      obtain ⟨js, hss, hds⟩ := ih hok'.2 hresps
      refine ⟨jp :: js, ?_, ?_⟩
      · have hss' : ps.mapM serializePart = some js := hss
        show (p :: ps).mapM serializePart = some (jp :: js)
        rw [List.mapM_cons, hs, hss']
        rfl
      · simp [deserializeDisplayParts_cons, hd, hds]

/-- Tag round trip. -/
lemma roundTag (de : DeserializerEnv) (t : CommentTag)
    (hok : partsRelOk t.content = true)
    (hres : ∀ r ∈ partsRefls t.content, resolveId de r.id = some r) :
    ∃ jt, CommentTag.toObject t = some jt ∧
      CommentTag.fromObject de jt = (t, []) := by
  obtain ⟨js, hs, hd⟩ := roundParts de t.content hok hres
  refine ⟨⟨t.tag, t.name, js⟩, ?_, ?_⟩
  · simp [CommentTag.toObject, hs]
  · simp [CommentTag.fromObject, hd]

/-- Tag-list round trip. -/
lemma roundTags (de : DeserializerEnv) (ts : List CommentTag)
    (hok : ts.all (fun t => partsRelOk t.content) = true)
    (hres : ∀ r ∈ (ts.map (fun t => partsRefls t.content)).flatten,
      resolveId de r.id = some r) :
    ∃ jts, ts.mapM CommentTag.toObject = some jts ∧
      (jts.map (CommentTag.fromObject de)).map Prod.fst = ts ∧
      ((jts.map (CommentTag.fromObject de)).map Prod.snd).flatten = [] := by
  induction ts with
  | nil => exact ⟨[], rfl, rfl, rfl⟩
  | cons t ts ih =>
      have hok' := hok
      simp only [List.all_cons, Bool.and_eq_true] at hok'
      have hrest : ∀ r ∈ partsRefls t.content, resolveId de r.id = some r := by
        intro r hr
        refine hres r ?_
        simp only [List.map_cons, List.flatten_cons]
        exact List.mem_append_left _ hr
      have hrests : ∀ r ∈ (ts.map (fun u => partsRefls u.content)).flatten,
          resolveId de r.id = some r := by
        intro r hr
        refine hres r ?_
        simp only [List.map_cons, List.flatten_cons]
        exact List.mem_append_right _ hr
      obtain ⟨jt, hs, hd⟩ := roundTag de t hok'.1 hrest
      obtain ⟨jts, hss, hf, hw⟩ := ih hok'.2 hrests
      refine ⟨jt :: jts, ?_, ?_, ?_⟩
      · show (t :: ts).mapM CommentTag.toObject = some (jt :: jts)
        rw [List.mapM_cons, hs, hss]
        rfl
      · simp [hd, hf]
      · simp only [List.map_cons, List.flatten_cons, hd]
        simpa using hw

/-- C1: round trip.  For a comment whose relative links all have targets
(any comment the program constructs), serializing with `toObject` and
deserializing with `fromObject` on a fresh comment — the deferred
callbacks running under the identity id remapping over a project that
resolves each referenced node id to that node — returns the comment
unchanged except that `sourcePath` and `discoveryId` are absent, and
emits no warnings. -/
theorem c1_round_trip (c : Comment) (de : DeserializerEnv)
    (hok : commentRelOk c = true)
    (hmap : ∀ i : Int, de.oldIdToNewId i = some i)
    (hres : ∀ r ∈ commentRefls c, de.getReflectionById r.id = some r)
    (hnd : c.modifierTags.Nodup) :
    ∃ j, Comment.toObject c = some j ∧
      Comment.fromObject de j =
        ({ c with sourcePath := none, discoveryId := none }, []) := by
  have hres' : ∀ r ∈ commentRefls c, resolveId de r.id = some r := by
    intro r hr
    unfold resolveId
    rw [hmap r.id]
    simpa using hres r hr
  have hok' := hok
  simp only [commentRelOk, Bool.and_eq_true] at hok'
  obtain ⟨js, hs, hd⟩ := roundParts de c.summary hok'.1
    (fun r hr => hres' r (List.mem_append_left _ hr))
  obtain ⟨jts, hts, htf, htw⟩ := roundTags de c.blockTags hok'.2
    (fun r hr => hres' r (List.mem_append_right _ hr))
  have hmt : jsSetOfList ((if c.modifierTags.length > 0
      then some c.modifierTags else none).getD []) = c.modifierTags := by
    by_cases h : c.modifierTags.length > 0
    · simp only [h, if_true, Option.getD_some]
      exact jsSetOfList_of_nodup _ hnd
    · have hnil : c.modifierTags = [] := by
        cases hmt : c.modifierTags with
        | nil => rfl
        | cons a l => rw [hmt] at h; simp at h
      simp [h, hnil, jsSetOfList]
  refine ⟨⟨js, jts,
    if c.modifierTags.length > 0 then some c.modifierTags else none,
    c.label⟩, ?_, ?_⟩
  · have hs2 : List.mapM.loop serializePart c.summary [] = some js := hs
    have hts2 : List.mapM.loop CommentTag.toObject c.blockTags [] =
      some jts := hts
    simp [Comment.toObject, serializeDisplayParts, hs2, hts2]
  · simp only [Comment.fromObject, hd, htf, htw, hmt]
    simp

/-- The two reflections of the C1 witness comment. -/
def exRefl1 : Reflection := ⟨1, 0, "R1".toList⟩

/-- Second reflection of the C1 witness comment. -/
def exRefl2 : Reflection := ⟨2, 0, "R2".toList⟩

/-- A concrete comment exercising every display-part and target kind. -/
def exComment : Comment :=
  { summary :=
      [.text "a".toList,
       .code "b".toList,
       .inlineTag "@link".toList "t".toList (some (.refl exRefl1))
         (some "lt".toList),
       .inlineTag "@x".toList "u".toList (some (.url "http".toList)) none,
       .inlineTag "@y".toList "v".toList (some (.sym ⟨"sid".toList⟩)) none,
       .relativeLink "rl".toList (some (.media 3)),
       .relativeLink "rl2".toList (some (.refl exRefl2))],
    blockTags := [⟨"@returns".toList, some "nm".toList,
      [.text "c".toList,
       .inlineTag "@link".toList "w".toList (some (.refl exRefl1)) none]⟩],
    modifierTags := ["@alpha".toList, "@beta".toList],
    label := some "lab".toList,
    sourcePath := some "src.ts".toList,
    discoveryId := some 42 }

/-- The C1 witness environment: identity remapping over a project holding
exactly the two referenced reflections. -/
def exEnv : DeserializerEnv :=
  ⟨fun i => some i,
   fun i => if i = 1 then some exRefl1
     else if i = 2 then some exRefl2 else none⟩

/-- Witness for C1 at the concrete comment and environment. -/
theorem c1_round_trip_witness :
    ∃ j, Comment.toObject exComment = some j ∧
      Comment.fromObject exEnv j =
        ({ exComment with sourcePath := none, discoveryId := none },
          []) :=
  c1_round_trip exComment exEnv (by decide) (fun i => rfl) (by decide)
    (by decide)
